import Mathlib

/-
Verification of the grid-partitioning algorithm of
`src/QGIS/subset-polygon.py` (class `BoundingBoxDivider`).

The embedding models the Python floats of the source as exact rationals
(ℚ): all quantities the algorithm manipulates (bounds, widths, centers,
buffers) are produced by field operations, `abs`, `ceil` and decimal
rounding, which are exact on ℚ.  Python's `ZeroDivisionError` is made
explicit through `Except`.  Python's `round(x, 6)` (which on floats uses
round-half-to-even) is idealized as round-half-up on exact rationals;
ties at the seventh decimal are the only place the two differ and no
statement below depends on tie behavior.
-/

namespace BoundingBoxDivider

/-- Bounding box of a feature geometry: the four scalars read by
`processAlgorithm` via `bbox.xMinimum()` etc. -/
structure BoundingBox where
  xMin : ℚ
  yMin : ℚ
  xMax : ℚ
  yMax : ℚ
deriving DecidableEq, Repr

/-- Attribute value of a feature: models the QVariant values stored in a
`QgsFeature` (Int, String, Double, or NULL which models Python `None`). -/
inductive AttrVal where
  | intVal : ℤ → AttrVal
  | strVal : String → AttrVal
  | realVal : ℚ → AttrVal
  | null : AttrVal
deriving DecidableEq, Repr

/-- An input feature: its attributes (by field name) and the bounding box of
its geometry.  `processAlgorithm` reads only the geometry's bounding box;
the input attributes are never read. -/
structure InputFeature where
  attrs : List (String × AttrVal)
  bbox : BoundingBox
deriving DecidableEq, Repr

/-- The input source: its field (attribute-schema) names and its features. -/
structure Source where
  fields : List String
  features : List InputFeature
deriving DecidableEq, Repr

/-- An output feature handed to the sink: a rectangle geometry plus the
positional attribute list set by `feature.setAttributes(...)`. -/
structure Feature where
  geometry : BoundingBox
  attributes : List AttrVal
deriving DecidableEq, Repr

/-- The failure modes of `processAlgorithm`: the two explicit raise sites
(invalid source, invalid sink), rejection of an out-of-range parameter by
the declared parameter constraint, and Python's `ZeroDivisionError`. -/
inductive PyErr where
  | invalidSource
  | invalidSink
  | parameterRejected
  | zeroDivision
deriving DecidableEq, Repr

/-- One cell's data, as assembled in the inner loop of `processAlgorithm`:
the entries of the Python dict `attrs` together with the rectangle geometry
`QgsRectangle(cell_x_min, cell_y_min, cell_x_max, cell_y_max)`. -/
structure GridCell where
  cellId : ℕ
  cellName : String
  row : ℕ
  col : ℕ
  bounds : BoundingBox
  centerLat : ℚ
  centerLon : ℚ
  buffer : ℚ
  notes : String
deriving DecidableEq, Repr

/-- Python `round(x, 6)`: rounding to 6 decimal places (see the header
comment on the tie idealization). -/
def round6 (x : ℚ) : ℚ :=
  ((round (x * 1000000) : ℤ) : ℚ) / 1000000

/-- Python's format `f"{n:02d}"`: decimal digits of `n`, zero-padded to
width at least 2. -/
def pad2 (n : ℕ) : String :=
  if n < 10 then
    "0" ++ Nat.repr n
  else
    Nat.repr n

/-- Source line `width_degrees = (x_max - x_min) / num_columns`. -/
def width_degrees (bbox : BoundingBox) (num_columns : ℤ) : ℚ :=
  (bbox.xMax - bbox.xMin) / (num_columns : ℚ)

/-- Source line `mid_lat = (y_max + y_min) / 2`. -/
def mid_lat (bbox : BoundingBox) : ℚ :=
  (bbox.yMax + bbox.yMin) / 2

/-- Source line `height_degrees = abs(width_degrees)`. -/
def height_degrees (bbox : BoundingBox) (num_columns : ℤ) : ℚ :=
  |width_degrees bbox num_columns|

/-- Source line `num_rows = math.ceil(total_height / height_degrees)` with
`total_height = y_max - y_min`. -/
def num_rows (bbox : BoundingBox) (num_columns : ℤ) : ℤ :=
  ⌈(bbox.yMax - bbox.yMin) / height_degrees bbox num_columns⌉

/-- Body of the inner loop: the cell built for 0-based loop indices
`(row, col)` and running counter `cell_id`.  Each field mirrors one
assignment of the source. -/
def mkCell (bbox : BoundingBox) (w h : ℚ) (cell_id row col : ℕ) : GridCell :=
  { cellId := cell_id
    cellName := "R" ++ pad2 (row + 1) ++ "C" ++ pad2 (col + 1)
    row := row + 1
    col := col + 1
    bounds :=
      { xMin := bbox.xMin + col * w
        yMin := bbox.yMin + row * h
        xMax := bbox.xMin + col * w + w
        yMax := bbox.yMin + row * h + h }
    centerLat := round6 (((bbox.yMin + row * h) + (bbox.yMin + row * h + h)) / 2)
    centerLon := round6 (((bbox.xMin + col * w) + (bbox.xMin + col * w + w)) / 2)
    buffer := round6 (w / 2)
    notes := "" }

/-- The 0-based `(row, col)` pairs visited by the two nested `for` loops,
in iteration order (row outer, col inner). -/
def rcPairs (nrows ncols : ℕ) : List (ℕ × ℕ) :=
  (List.range nrows).flatMap (fun row => (List.range ncols).map (fun col => (row, col)))

/-- The grid loop: emits one cell per visited `(row, col)` pair, with the
counter `cell_id` incremented by 1 after each emission (it starts at 1). -/
def emitCells (bbox : BoundingBox) (w h : ℚ) : ℕ → List (ℕ × ℕ) → List GridCell
  | _, [] => []
  | cell_id, rc :: rest => mkCell bbox w h cell_id rc.1 rc.2 :: emitCells bbox w h (cell_id + 1) rest

/-- All cells produced for one input bounding box: the nested loops
`for row in range(num_rows): for col in range(num_columns):` with
`cell_id` starting at 1 (`range` of a nonpositive count is empty, hence
`Int.toNat`). -/
def gridCells (bbox : BoundingBox) (num_columns : ℤ) : List GridCell :=
  emitCells bbox (width_degrees bbox num_columns) (height_degrees bbox num_columns) 1
    (rcPairs (num_rows bbox num_columns).toNat num_columns.toNat)

/-- Result of processing one input feature: the emitted cells, the pair of
points passed to the distance service (`measureLine([point1, point2])`),
and the returned `width_meters`. -/
structure FeatureResult where
  cells : List GridCell
  distCall : (ℚ × ℚ) × (ℚ × ℚ)
  widthMeters : ℚ

/-- One iteration of the `for input_feature in source.getFeatures()` loop:
the whole per-bbox computation of `processAlgorithm`.  The distance
service `dist` maps two (lon, lat) points to meters.  Python raises
`ZeroDivisionError` at `(x_max - x_min) / num_columns` when
`num_columns = 0`, and at `total_height / height_degrees` when
`height_degrees = 0`. -/
def processFeature (dist : ℚ × ℚ → ℚ × ℚ → ℚ) (num_columns : ℤ) (bbox : BoundingBox) :
    Except PyErr FeatureResult :=
  if num_columns = 0 then Except.error PyErr.zeroDivision
  else if height_degrees bbox num_columns = 0 then Except.error PyErr.zeroDivision
  else
    Except.ok
      { cells := gridCells bbox num_columns
        distCall := ((bbox.xMin, mid_lat bbox),
                     (bbox.xMin + width_degrees bbox num_columns, mid_lat bbox))
        widthMeters := dist (bbox.xMin, mid_lat bbox)
                            (bbox.xMin + width_degrees bbox num_columns, mid_lat bbox) }

/-- The eight fields appended to the source's fields, in `fields.append`
order. -/
def newFieldNames : List String :=
  [ "cell_id", "cell_name", "row", "col", "center_lat", "center_lon", "buffer", "notes"]

/-- Source lines `fields = source.fields(); fields.append(...) * 8`. -/
def outputFields (source_fields : List String) : List String :=
  source_fields ++ newFieldNames

/-- The Python dict `attrs` built for one cell, in insertion order. -/
def attrsDict (cell : GridCell) : List (String × AttrVal) :=
  [ ("cell_id", AttrVal.intVal cell.cellId),
    ("cell_name", AttrVal.strVal cell.cellName),
    ("row", AttrVal.intVal cell.row),
    ("col", AttrVal.intVal cell.col),
    ("center_lat", AttrVal.realVal cell.centerLat),
    ("center_lon", AttrVal.realVal cell.centerLon),
    ("buffer", AttrVal.realVal cell.buffer),
    ("notes", AttrVal.strVal cell.notes)]

/-- Python `attrs.get(key, None)`. -/
def dictGet (d : List (String × AttrVal)) (key : String) : AttrVal :=
  match d.find? (fun p => p.1 == key) with
  | some p => p.2
  | none => AttrVal.null

/-- Source line `attribute_values = [attrs.get(f.name(), None) for f in fields]`. -/
def attributeValues (fields : List String) (cell : GridCell) : List AttrVal :=
  fields.map (fun f => dictGet (attrsDict cell) f)

/-- The `QgsFeature` handed to the sink for one cell: rectangle geometry
plus `setAttributes(attribute_values)`. -/
def toFeature (fields : List String) (cell : GridCell) : Feature :=
  { geometry := cell.bounds, attributes := attributeValues fields cell }

/-- The feature loop of `processAlgorithm`: each input feature's cells are
appended to the sink in order; an exception aborts the run. -/
def processFeatures (dist : ℚ × ℚ → ℚ × ℚ → ℚ) (num_columns : ℤ) (fields : List String) :
    List InputFeature → Except PyErr (List Feature)
  | [] => Except.ok []
  | f :: rest =>
    match processFeature dist num_columns f.bbox with
    | Except.error e => Except.error e
    | Except.ok res =>
      match processFeatures dist num_columns fields rest with
      | Except.error e => Except.error e
      | Except.ok out => Except.ok (res.cells.map (toFeature fields) ++ out)

/-- The whole algorithm run.  The `COLUMNS` parameter is declared in
`initAlgorithm` with `minValue=1`, so the host's parameter validation
rejects `num_columns < 1` before `processAlgorithm` runs; a `None` source
hits the `invalidSourceError` raise site; otherwise the feature loop runs
over the source's features with the extended field list. -/
def runAlgorithm (dist : ℚ × ℚ → ℚ × ℚ → ℚ) (source : Option Source) (num_columns : ℤ) :
    Except PyErr (List Feature) :=
  if num_columns < 1 then Except.error PyErr.parameterRejected
  else
    match source with
    | none => Except.error PyErr.invalidSource
    | some src => processFeatures dist num_columns (outputFields src.fields) src.features

/-! Basic lemmas about the loop embedding. -/

theorem emitCells_length (bbox : BoundingBox) (w h : ℚ) :
    ∀ (ps : List (ℕ × ℕ)) (k : ℕ), (emitCells bbox w h k ps).length = ps.length := by
  intro ps
  induction ps with
  | nil => intro k; rfl
  | cons p rest ih => intro k; simp [emitCells, ih]

theorem emitCells_get (bbox : BoundingBox) (w h : ℚ) :
    ∀ (ps : List (ℕ × ℕ)) (k i : ℕ) (hi : i < ps.length)
      (hi2 : i < (emitCells bbox w h k ps).length),
      (emitCells bbox w h k ps).get ⟨i, hi2⟩ =
        mkCell bbox w h (k + i) (ps.get ⟨i, hi⟩).1 (ps.get ⟨i, hi⟩).2 := by
  intro ps
  induction ps with
  | nil => intro k i hi; exact absurd hi (by simp)
  | cons p rest ih =>
    intro k i hi hi2
    match i with
    | 0 => simp [emitCells]
    | Nat.succ j =>
      have hj : j < rest.length := by simpa using hi
      have hj2 : j < (emitCells bbox w h (k + 1) rest).length := by
        rw [emitCells_length]; exact hj
      have : (emitCells bbox w h k (p :: rest)).get ⟨j + 1, hi2⟩ =
          (emitCells bbox w h (k + 1) rest).get ⟨j, hj2⟩ := rfl
      rw [this, ih (k + 1) j hj hj2]
      have : k + 1 + j = k + (j + 1) := by omega
      rw [this]
      rfl

theorem emitCells_map_cellId (bbox : BoundingBox) (w h : ℚ) :
    ∀ (ps : List (ℕ × ℕ)) (k : ℕ),
      (emitCells bbox w h k ps).map GridCell.cellId = List.range' k ps.length := by
  intro ps
  induction ps with
  | nil => intro k; rfl
  | cons p rest ih =>
    intro k
    simp [emitCells, mkCell, ih, List.range'_succ]

theorem emitCells_mem (bbox : BoundingBox) (w h : ℚ) :
    ∀ (ps : List (ℕ × ℕ)) (k : ℕ) (cell : GridCell), cell ∈ emitCells bbox w h k ps →
      ∃ j rc, rc ∈ ps ∧ cell = mkCell bbox w h j rc.1 rc.2 := by
  intro ps
  induction ps with
  | nil => intro k cell hc; exact absurd hc (by simp [emitCells])
  | cons p rest ih =>
    intro k cell hc
    rcases (List.mem_cons).1 hc with h0 | h1
    · exact ⟨k, p, List.mem_cons_self p rest, h0⟩
    · rcases ih (k + 1) cell h1 with ⟨j, rc, hmem, heq⟩
      exact ⟨j, rc, List.mem_cons_of_mem p hmem, heq⟩

theorem rcPairs_zero (ncols : ℕ) : rcPairs 0 ncols = [] := rfl

theorem rcPairs_succ (nrows ncols : ℕ) :
    rcPairs (nrows + 1) ncols =
      rcPairs nrows ncols ++ (List.range ncols).map (fun col => (nrows, col)) := by
  simp [rcPairs, List.range_succ]

theorem rcPairs_length (nrows ncols : ℕ) : (rcPairs nrows ncols).length = nrows * ncols := by
  induction nrows with
  | zero => simp [rcPairs]
  | succ m ih => rw [rcPairs_succ]; simp [ih, Nat.succ_mul]

theorem rcPairs_eq (nrows ncols : ℕ) (hc : 0 < ncols) :
    rcPairs nrows ncols = (List.range (nrows * ncols)).map (fun i => (i / ncols, i % ncols)) := by
  induction nrows with
  | zero => simp [rcPairs]
  | succ m ih =>
    rw [rcPairs_succ, ih]
    have hmul : (m + 1) * ncols = m * ncols + ncols := Nat.succ_mul m ncols
    rw [hmul, List.range_add, List.map_append, List.map_map]
    congr 1
    apply List.map_congr_left
    intro c hcmem
    have hclt : c < ncols := List.mem_range.1 hcmem
    have hdiv : (m * ncols + c) / ncols = m := by
      rw [Nat.mul_comm, Nat.mul_add_div hc, Nat.div_eq_of_lt hclt, Nat.add_zero]
    have hmod : (m * ncols + c) % ncols = c := by
      rw [Nat.mul_comm, Nat.mul_add_mod, Nat.mod_eq_of_lt hclt]
    simp [hdiv, hmod]

/-! Arithmetic facts available for a valid request. -/

theorem width_pos (bbox : BoundingBox) (n : ℤ) (hn : 1 ≤ n) (hx : bbox.xMin < bbox.xMax) :
    0 < width_degrees bbox n := by
  apply div_pos (by linarith)
  exact_mod_cast (by omega : (0 : ℤ) < n)

theorem height_eq_width (bbox : BoundingBox) (n : ℤ) (hw : 0 < width_degrees bbox n) :
    height_degrees bbox n = width_degrees bbox n := by
  rw [height_degrees, abs_of_pos hw]

theorem height_pos_of_ne (bbox : BoundingBox) (n : ℤ) (hw : width_degrees bbox n ≠ 0) :
    0 < height_degrees bbox n := by
  rw [height_degrees]
  exact abs_pos.mpr hw

theorem num_rows_pos (bbox : BoundingBox) (n : ℤ) (hy : bbox.yMin < bbox.yMax)
    (hh : 0 < height_degrees bbox n) : 1 ≤ num_rows bbox n := by
  rw [num_rows]
  have : (0 : ℚ) < (bbox.yMax - bbox.yMin) / height_degrees bbox n :=
    div_pos (by linarith) hh
  exact Int.ceil_pos.mpr this

theorem num_rows_nonpos (bbox : BoundingBox) (n : ℤ) (hy : bbox.yMax ≤ bbox.yMin)
    (hh : 0 < height_degrees bbox n) : num_rows bbox n ≤ 0 := by
  rw [num_rows]
  have : (bbox.yMax - bbox.yMin) / height_degrees bbox n ≤ 0 :=
    div_nonpos_of_nonpos_of_nonneg (by linarith) (le_of_lt hh)
  calc ⌈(bbox.yMax - bbox.yMin) / height_degrees bbox n⌉ ≤ ⌈(0 : ℚ)⌉ := Int.ceil_le_ceil this
  _ = 0 := Int.ceil_zero

theorem ncols_cast (n : ℤ) (hn : 1 ≤ n) : ((n.toNat : ℕ) : ℚ) = (n : ℚ) := by
  rw [← Int.cast_natCast, Int.toNat_of_nonneg (by omega)]

theorem nrows_cast (bbox : BoundingBox) (n : ℤ) (hr : 1 ≤ num_rows bbox n) :
    (((num_rows bbox n).toNat : ℕ) : ℚ) = ((num_rows bbox n : ℤ) : ℚ) := by
  rw [← Int.cast_natCast, Int.toNat_of_nonneg (by omega)]

theorem ncols_mul_width (bbox : BoundingBox) (n : ℤ) (hn : n ≠ 0) :
    (n : ℚ) * width_degrees bbox n = bbox.xMax - bbox.xMin := by
  rw [width_degrees, mul_div_cancel₀]
  exact_mod_cast hn

theorem ymax_le_rows (bbox : BoundingBox) (n : ℤ) (hh : 0 < height_degrees bbox n) :
    bbox.yMax ≤ bbox.yMin + (num_rows bbox n : ℚ) * height_degrees bbox n := by
  have hle : (bbox.yMax - bbox.yMin) / height_degrees bbox n ≤ (num_rows bbox n : ℚ) :=
    Int.le_ceil _
  have := (div_le_iff₀ hh).1 hle
  linarith

theorem processFeature_ok (dist : ℚ × ℚ → ℚ × ℚ → ℚ) (n : ℤ) (bbox : BoundingBox)
    (hn : n ≠ 0) (hw : width_degrees bbox n ≠ 0) :
    processFeature dist n bbox =
      Except.ok
        { cells := gridCells bbox n
          distCall := ((bbox.xMin, mid_lat bbox),
                       (bbox.xMin + width_degrees bbox n, mid_lat bbox))
          widthMeters := dist (bbox.xMin, mid_lat bbox)
                              (bbox.xMin + width_degrees bbox n, mid_lat bbox) } := by
  have hh : height_degrees bbox n ≠ 0 := ne_of_gt (height_pos_of_ne bbox n hw)
  rw [processFeature, if_neg hn, if_neg hh]

/-! Structure of the emitted cell list under a valid request. -/

theorem gridCells_length (bbox : BoundingBox) (n : ℤ) :
    (gridCells bbox n).length = (num_rows bbox n).toNat * n.toNat := by
  rw [gridCells, emitCells_length, rcPairs_length]

theorem gridCells_get (bbox : BoundingBox) (n : ℤ) (hn : 0 < n.toNat) (i : ℕ)
    (hi : i < (gridCells bbox n).length) :
    (gridCells bbox n).get ⟨i, hi⟩ =
      mkCell bbox (width_degrees bbox n) (height_degrees bbox n) (1 + i)
        (i / n.toNat) (i % n.toNat) := by
  have hlen : i < (rcPairs (num_rows bbox n).toNat n.toNat).length := by
    rw [rcPairs_length]
    rw [gridCells_length] at hi
    exact hi
  have h1 := emitCells_get bbox (width_degrees bbox n) (height_degrees bbox n)
    (rcPairs (num_rows bbox n).toNat n.toNat) 1 i hlen hi
  have hp : (rcPairs (num_rows bbox n).toNat n.toNat).get ⟨i, hlen⟩ =
      (i / n.toNat, i % n.toNat) := by
    rw [List.get_eq_getElem, List.getElem_of_eq (rcPairs_eq _ _ hn)]
    simp
  rw [hp] at h1
  exact h1

theorem gridCells_mem_of_lt (bbox : BoundingBox) (n : ℤ) (hn : 0 < n.toNat)
    (r c : ℕ) (hr : r < (num_rows bbox n).toNat) (hc : c < n.toNat) :
    mkCell bbox (width_degrees bbox n) (height_degrees bbox n) (1 + (r * n.toNat + c)) r c ∈
      gridCells bbox n := by
  have hi : r * n.toNat + c < (num_rows bbox n).toNat * n.toNat := by
    have h1 : r + 1 ≤ (num_rows bbox n).toNat := hr
    calc r * n.toNat + c < r * n.toNat + n.toNat := by omega
    _ = (r + 1) * n.toNat := by ring
    _ ≤ (num_rows bbox n).toNat * n.toNat := Nat.mul_le_mul_right _ h1
  have hi2 : r * n.toNat + c < (gridCells bbox n).length := by
    rw [gridCells_length]; exact hi
  have hget := gridCells_get bbox n hn (r * n.toNat + c) hi2
  have hdiv : (r * n.toNat + c) / n.toNat = r := by
    rw [Nat.mul_comm, Nat.mul_add_div hn, Nat.div_eq_of_lt hc, Nat.add_zero]
  have hmod : (r * n.toNat + c) % n.toNat = c := by
    rw [Nat.mul_comm, Nat.mul_add_mod, Nat.mod_eq_of_lt hc]
  rw [hdiv, hmod] at hget
  rw [← hget]
  exact List.get_mem _ _ _

theorem gridCells_mem_elim (bbox : BoundingBox) (n : ℤ) (cell : GridCell)
    (hc : cell ∈ gridCells bbox n) :
    ∃ j r c, r < (num_rows bbox n).toNat ∧ c < n.toNat ∧
      cell = mkCell bbox (width_degrees bbox n) (height_degrees bbox n) j r c := by
  rcases emitCells_mem bbox _ _ _ _ cell hc with ⟨j, rc, hmem, heq⟩
  rw [rcPairs] at hmem
  simp only [List.mem_flatMap, List.mem_map, List.mem_range] at hmem
  rcases hmem with ⟨r, hr, c, hcc, hrc⟩
  refine ⟨j, r, c, hr, hcc, ?_⟩
  rw [heq, ← hrc]

/-! Covering a segment by equal consecutive subsegments. -/

theorem interval_cover (w : ℚ) :
    ∀ (k : ℕ), 1 ≤ k → ∀ (a x : ℚ), a ≤ x → x ≤ a + (k : ℚ) * w →
      ∃ c : ℕ, c < k ∧ a + (c : ℚ) * w ≤ x ∧ x ≤ a + (c : ℚ) * w + w := by
  intro k
  induction k with
  | zero => omega
  | succ m ih =>
    intro _ a x hax hxk
    by_cases hx : x ≤ a + w
    · exact ⟨0, Nat.succ_pos m, by simpa using hax, by push_cast; linarith⟩
    · have hm : 1 ≤ m := by
        by_contra hm0
        have : m = 0 := by omega
        rw [this] at hxk
        push_cast at hxk
        linarith
      have hx2 : a + w ≤ x := le_of_lt (lt_of_not_le hx)
      have hxk2 : x ≤ (a + w) + (m : ℚ) * w := by push_cast at hxk ⊢; linarith
      rcases ih hm (a + w) x hx2 hxk2 with ⟨c, hck, h1, h2⟩
      refine ⟨c + 1, by omega, ?_, ?_⟩
      · push_cast; linarith
      · push_cast at h2 ⊢; linarith

/-! Claim theorems. -/

/-- C1: for every valid request (xMax > xMin, yMax > yMin, numColumns ≥ 1) the
partition result has exactly numRows * numColumns cells; the cell with 1-based
indices (row, col) has bounds cellXMin = xMin + (col-1)*widthDegrees,
cellXMax = cellXMin + widthDegrees, cellYMin = yMin + (row-1)*heightDegrees,
cellYMax = cellYMin + heightDegrees; and every such index pair occurs. -/
theorem c1_cell_count_and_bounds (dist : ℚ × ℚ → ℚ × ℚ → ℚ) (n : ℤ) (bbox : BoundingBox)
    (hn : 1 ≤ n) (hx : bbox.xMin < bbox.xMax) (_hy : bbox.yMin < bbox.yMax) :
    ∃ res : FeatureResult, processFeature dist n bbox = Except.ok res ∧
      res.cells.length = (num_rows bbox n).toNat * n.toNat ∧
      (∀ cell ∈ res.cells,
        cell.bounds.xMin = bbox.xMin + ((cell.col : ℚ) - 1) * width_degrees bbox n ∧
        cell.bounds.xMax = cell.bounds.xMin + width_degrees bbox n ∧
        cell.bounds.yMin = bbox.yMin + ((cell.row : ℚ) - 1) * height_degrees bbox n ∧
        cell.bounds.yMax = cell.bounds.yMin + height_degrees bbox n) ∧
      (∀ r c : ℕ, 1 ≤ r → r ≤ (num_rows bbox n).toNat → 1 ≤ c → c ≤ n.toNat →
        ∃ cell ∈ res.cells, cell.row = r ∧ cell.col = c) := by
  have hw0 : 0 < width_degrees bbox n := width_pos bbox n hn hx
  have hne : width_degrees bbox n ≠ 0 := ne_of_gt hw0
  have hn0 : n ≠ 0 := by omega
  have hntn : 0 < n.toNat := by omega
  refine ⟨_, processFeature_ok dist n bbox hn0 hne, gridCells_length bbox n, ?_, ?_⟩
  · intro cell hc
    rcases gridCells_mem_elim bbox n cell hc with ⟨j, r, c, hr, hcc, heq⟩
    subst heq
    simp only [mkCell]
    push_cast
    refine ⟨by ring, by ring, by ring, by ring⟩
  · intro r c hr1 hr2 hc1 hc2
    refine ⟨mkCell bbox (width_degrees bbox n) (height_degrees bbox n)
      (1 + ((r - 1) * n.toNat + (c - 1))) (r - 1) (c - 1),
      gridCells_mem_of_lt bbox n hntn (r - 1) (c - 1) (by omega) (by omega), ?_, ?_⟩
    · simp only [mkCell]; omega
    · simp only [mkCell]; omega

/-- C1 witness: the theorem applied to the box (0,0)-(10,4) with 2 columns. -/
theorem c1_witness :
    (1 : ℤ) ≤ 2 ∧ (0 : ℚ) < 10 ∧ (0 : ℚ) < 4 ∧
    (∃ res : FeatureResult, processFeature (fun _ _ => 0) 2 ⟨0, 0, 10, 4⟩ = Except.ok res ∧
      res.cells.length = (num_rows ⟨0, 0, 10, 4⟩ 2).toNat * (2 : ℤ).toNat ∧
      (∀ cell ∈ res.cells,
        cell.bounds.xMin = (0 : ℚ) + ((cell.col : ℚ) - 1) * width_degrees ⟨0, 0, 10, 4⟩ 2 ∧
        cell.bounds.xMax = cell.bounds.xMin + width_degrees ⟨0, 0, 10, 4⟩ 2 ∧
        cell.bounds.yMin = (0 : ℚ) + ((cell.row : ℚ) - 1) * height_degrees ⟨0, 0, 10, 4⟩ 2 ∧
        cell.bounds.yMax = cell.bounds.yMin + height_degrees ⟨0, 0, 10, 4⟩ 2) ∧
      (∀ r c : ℕ, 1 ≤ r → r ≤ (num_rows ⟨0, 0, 10, 4⟩ 2).toNat → 1 ≤ c → c ≤ (2 : ℤ).toNat →
        ∃ cell ∈ res.cells, cell.row = r ∧ cell.col = c)) :=
  ⟨by norm_num, by norm_num, by norm_num,
    c1_cell_count_and_bounds (fun _ _ => 0) 2 ⟨0, 0, 10, 4⟩ (by norm_num) (by norm_num)
      (by norm_num)⟩

/-- C3: for every valid request the cellId values are exactly
1..numRows*numColumns in emission order, and emission order is row-major:
the cell at 0-based emission index i has id i+1, row i/numColumns + 1 and
col i%numColumns + 1. -/
theorem c3_ids_row_major (dist : ℚ × ℚ → ℚ × ℚ → ℚ) (n : ℤ) (bbox : BoundingBox)
    (hn : 1 ≤ n) (hx : bbox.xMin < bbox.xMax) (_hy : bbox.yMin < bbox.yMax) :
    ∃ res : FeatureResult, processFeature dist n bbox = Except.ok res ∧
      res.cells.map GridCell.cellId = List.range' 1 ((num_rows bbox n).toNat * n.toNat) ∧
      ∀ (i : ℕ) (hi : i < res.cells.length),
        (res.cells.get ⟨i, hi⟩).cellId = i + 1 ∧
        (res.cells.get ⟨i, hi⟩).row = i / n.toNat + 1 ∧
        (res.cells.get ⟨i, hi⟩).col = i % n.toNat + 1 := by
  have hw0 : 0 < width_degrees bbox n := width_pos bbox n hn hx
  have hne : width_degrees bbox n ≠ 0 := ne_of_gt hw0
  have hn0 : n ≠ 0 := by omega
  have hntn : 0 < n.toNat := by omega
  refine ⟨_, processFeature_ok dist n bbox hn0 hne, ?_, ?_⟩
  · show (gridCells bbox n).map GridCell.cellId = _
    rw [gridCells, emitCells_map_cellId, rcPairs_length]
  · intro i hi
    show ((gridCells bbox n).get ⟨i, hi⟩).cellId = i + 1 ∧
      ((gridCells bbox n).get ⟨i, hi⟩).row = i / n.toNat + 1 ∧
      ((gridCells bbox n).get ⟨i, hi⟩).col = i % n.toNat + 1
    rw [gridCells_get bbox n hntn i hi]
    simp [mkCell, Nat.add_comm]

/-- C3 witness: the theorem applied to the box (0,0)-(10,4) with 2 columns. -/
theorem c3_witness :
    (1 : ℤ) ≤ 2 ∧ (0 : ℚ) < 10 ∧ (0 : ℚ) < 4 ∧
    (∃ res : FeatureResult, processFeature (fun _ _ => 0) 2 ⟨0, 0, 10, 4⟩ = Except.ok res ∧
      res.cells.map GridCell.cellId =
        List.range' 1 ((num_rows ⟨0, 0, 10, 4⟩ 2).toNat * (2 : ℤ).toNat) ∧
      ∀ (i : ℕ) (hi : i < res.cells.length),
        (res.cells.get ⟨i, hi⟩).cellId = i + 1 ∧
        (res.cells.get ⟨i, hi⟩).row = i / (2 : ℤ).toNat + 1 ∧
        (res.cells.get ⟨i, hi⟩).col = i % (2 : ℤ).toNat + 1) :=
  ⟨by norm_num, by norm_num, by norm_num,
    c3_ids_row_major (fun _ _ => 0) 2 ⟨0, 0, 10, 4⟩ (by norm_num) (by norm_num) (by norm_num)⟩

/-- C5: for every valid request the buffer attribute of every cell equals
widthDegrees / 2 rounded to 6 decimal places, hence is the same for all
cells of the partition result. -/
theorem c5_buffer_invariant (dist : ℚ × ℚ → ℚ × ℚ → ℚ) (n : ℤ) (bbox : BoundingBox)
    (hn : 1 ≤ n) (hx : bbox.xMin < bbox.xMax) (_hy : bbox.yMin < bbox.yMax) :
    ∃ res : FeatureResult, processFeature dist n bbox = Except.ok res ∧
      ∀ cell ∈ res.cells, cell.buffer = round6 (width_degrees bbox n / 2) := by
  have hw0 : 0 < width_degrees bbox n := width_pos bbox n hn hx
  have hn0 : n ≠ 0 := by omega
  refine ⟨_, processFeature_ok dist n bbox hn0 (ne_of_gt hw0), ?_⟩
  intro cell hc
  rcases gridCells_mem_elim bbox n cell hc with ⟨j, r, c, hr, hcc, heq⟩
  subst heq
  rfl

/-- C5 witness: the theorem applied to the box (0,0)-(10,4) with 2 columns. -/
theorem c5_witness :
    (1 : ℤ) ≤ 2 ∧ (0 : ℚ) < 10 ∧ (0 : ℚ) < 4 ∧
    (∃ res : FeatureResult, processFeature (fun _ _ => 0) 2 ⟨0, 0, 10, 4⟩ = Except.ok res ∧
      ∀ cell ∈ res.cells, cell.buffer = round6 (width_degrees ⟨0, 0, 10, 4⟩ 2 / 2)) :=
  ⟨by norm_num, by norm_num, by norm_num,
    c5_buffer_invariant (fun _ _ => 0) 2 ⟨0, 0, 10, 4⟩ (by norm_num) (by norm_num) (by norm_num)⟩

/-- C6: for every cell of every valid partition result, centerLon and
centerLat are the arithmetic midpoints of that cell's own bounds, rounded
to 6 decimal places. -/
theorem c6_center_midpoint (dist : ℚ × ℚ → ℚ × ℚ → ℚ) (n : ℤ) (bbox : BoundingBox)
    (hn : 1 ≤ n) (hx : bbox.xMin < bbox.xMax) (_hy : bbox.yMin < bbox.yMax) :
    ∃ res : FeatureResult, processFeature dist n bbox = Except.ok res ∧
      ∀ cell ∈ res.cells,
        cell.centerLon = round6 ((cell.bounds.xMin + cell.bounds.xMax) / 2) ∧
        cell.centerLat = round6 ((cell.bounds.yMin + cell.bounds.yMax) / 2) := by
  have hw0 : 0 < width_degrees bbox n := width_pos bbox n hn hx
  have hn0 : n ≠ 0 := by omega
  refine ⟨_, processFeature_ok dist n bbox hn0 (ne_of_gt hw0), ?_⟩
  intro cell hc
  rcases gridCells_mem_elim bbox n cell hc with ⟨j, r, c, hr, hcc, heq⟩
  subst heq
  exact ⟨rfl, rfl⟩

/-- C6 witness: the theorem applied to the box (0,0)-(10,4) with 2 columns. -/
theorem c6_witness :
    (1 : ℤ) ≤ 2 ∧ (0 : ℚ) < 10 ∧ (0 : ℚ) < 4 ∧
    (∃ res : FeatureResult, processFeature (fun _ _ => 0) 2 ⟨0, 0, 10, 4⟩ = Except.ok res ∧
      ∀ cell ∈ res.cells,
        cell.centerLon = round6 ((cell.bounds.xMin + cell.bounds.xMax) / 2) ∧
        cell.centerLat = round6 ((cell.bounds.yMin + cell.bounds.yMax) / 2)) :=
  ⟨by norm_num, by norm_num, by norm_num,
    c6_center_midpoint (fun _ _ => 0) 2 ⟨0, 0, 10, 4⟩ (by norm_num) (by norm_num) (by norm_num)⟩

/-- C10: for every valid request the result is non-empty (numRows ≥ 1, at
least numColumns cells) and every cell's bounds form a valid bounding box
whose width and height both equal widthDegrees. -/
theorem c10_nonempty_valid_cells (dist : ℚ × ℚ → ℚ × ℚ → ℚ) (n : ℤ) (bbox : BoundingBox)
    (hn : 1 ≤ n) (hx : bbox.xMin < bbox.xMax) (hy : bbox.yMin < bbox.yMax) :
    ∃ res : FeatureResult, processFeature dist n bbox = Except.ok res ∧
      1 ≤ num_rows bbox n ∧ res.cells ≠ [] ∧ n.toNat ≤ res.cells.length ∧
      ∀ cell ∈ res.cells,
        cell.bounds.xMin < cell.bounds.xMax ∧ cell.bounds.yMin < cell.bounds.yMax ∧
        cell.bounds.xMax - cell.bounds.xMin = width_degrees bbox n ∧
        cell.bounds.yMax - cell.bounds.yMin = width_degrees bbox n := by
  have hw0 : 0 < width_degrees bbox n := width_pos bbox n hn hx
  have hh0 : 0 < height_degrees bbox n := height_pos_of_ne bbox n (ne_of_gt hw0)
  have hhw : height_degrees bbox n = width_degrees bbox n := height_eq_width bbox n hw0
  have hr : 1 ≤ num_rows bbox n := num_rows_pos bbox n hy hh0
  have hn0 : n ≠ 0 := by omega
  refine ⟨_, processFeature_ok dist n bbox hn0 (ne_of_gt hw0), hr, ?_, ?_, ?_⟩
  · have hlen : (gridCells bbox n).length = (num_rows bbox n).toNat * n.toNat :=
      gridCells_length bbox n
    have hpos : 0 < (gridCells bbox n).length := by
      rw [hlen]
      have h1 : 0 < (num_rows bbox n).toNat := by omega
      have h2 : 0 < n.toNat := by omega
      exact Nat.mul_pos h1 h2
    exact List.ne_nil_of_length_pos hpos
  · rw [gridCells_length]
    have h1 : 1 ≤ (num_rows bbox n).toNat := by omega
    calc n.toNat = 1 * n.toNat := (Nat.one_mul _).symm
    _ ≤ (num_rows bbox n).toNat * n.toNat := Nat.mul_le_mul_right _ h1
  · intro cell hc
    rcases gridCells_mem_elim bbox n cell hc with ⟨j, r, c, hrr, hcc, heq⟩
    subst heq
    simp only [mkCell]
    refine ⟨by linarith, by rw [hhw]; linarith, by ring, by rw [hhw]; ring⟩

/-- C10 witness: the theorem applied to the box (0,0)-(10,4) with 2 columns. -/
theorem c10_witness :
    (1 : ℤ) ≤ 2 ∧ (0 : ℚ) < 10 ∧ (0 : ℚ) < 4 ∧
    (∃ res : FeatureResult, processFeature (fun _ _ => 0) 2 ⟨0, 0, 10, 4⟩ = Except.ok res ∧
      1 ≤ num_rows ⟨0, 0, 10, 4⟩ 2 ∧ res.cells ≠ [] ∧ (2 : ℤ).toNat ≤ res.cells.length ∧
      ∀ cell ∈ res.cells,
        cell.bounds.xMin < cell.bounds.xMax ∧ cell.bounds.yMin < cell.bounds.yMax ∧
        cell.bounds.xMax - cell.bounds.xMin = width_degrees ⟨0, 0, 10, 4⟩ 2 ∧
        cell.bounds.yMax - cell.bounds.yMin = width_degrees ⟨0, 0, 10, 4⟩ 2) :=
  ⟨by norm_num, by norm_num, by norm_num,
    c10_nonempty_valid_cells (fun _ _ => 0) 2 ⟨0, 0, 10, 4⟩ (by norm_num) (by norm_num)
      (by norm_num)⟩

/-- C4: for every valid request the union of the emitted cell bounds contains
the input bounding box, and the covered region is contained in the rectangle
from (xMin, yMin) to (xMax, yMin + numRows*heightDegrees), which is at least
as large as the input box, overshooting at most past yMax. -/
theorem c4_coverage (dist : ℚ × ℚ → ℚ × ℚ → ℚ) (n : ℤ) (bbox : BoundingBox)
    (hn : 1 ≤ n) (hx : bbox.xMin < bbox.xMax) (hy : bbox.yMin < bbox.yMax) :
    ∃ res : FeatureResult, processFeature dist n bbox = Except.ok res ∧
      (∀ x y : ℚ, bbox.xMin ≤ x → x ≤ bbox.xMax → bbox.yMin ≤ y → y ≤ bbox.yMax →
        ∃ cell ∈ res.cells, cell.bounds.xMin ≤ x ∧ x ≤ cell.bounds.xMax ∧
          cell.bounds.yMin ≤ y ∧ y ≤ cell.bounds.yMax) ∧
      (∀ cell ∈ res.cells,
        bbox.xMin ≤ cell.bounds.xMin ∧ cell.bounds.xMax ≤ bbox.xMax ∧
        bbox.yMin ≤ cell.bounds.yMin ∧
        cell.bounds.yMax ≤ bbox.yMin + ((num_rows bbox n : ℤ) : ℚ) * height_degrees bbox n) ∧
      bbox.yMax ≤ bbox.yMin + ((num_rows bbox n : ℤ) : ℚ) * height_degrees bbox n := by
  have hw0 : 0 < width_degrees bbox n := width_pos bbox n hn hx
  have hh0 : 0 < height_degrees bbox n := height_pos_of_ne bbox n (ne_of_gt hw0)
  have hr1 : 1 ≤ num_rows bbox n := num_rows_pos bbox n hy hh0
  have hn0 : n ≠ 0 := by omega
  have hntn : 0 < n.toNat := by omega
  have hrtn : 0 < (num_rows bbox n).toNat := by omega
  have hcast_n : ((n.toNat : ℕ) : ℚ) = (n : ℚ) := ncols_cast n hn
  have hcast_r : (((num_rows bbox n).toNat : ℕ) : ℚ) = ((num_rows bbox n : ℤ) : ℚ) :=
    nrows_cast bbox n hr1
  have hnw : ((n.toNat : ℕ) : ℚ) * width_degrees bbox n = bbox.xMax - bbox.xMin := by
    rw [hcast_n]; exact ncols_mul_width bbox n hn0
  have hymax : bbox.yMax ≤ bbox.yMin + ((num_rows bbox n : ℤ) : ℚ) * height_degrees bbox n :=
    ymax_le_rows bbox n hh0
  refine ⟨_, processFeature_ok dist n bbox hn0 (ne_of_gt hw0), ?_, ?_, hymax⟩
  · intro x y hx1 hx2 hy1 hy2
    have hxk : x ≤ bbox.xMin + ((n.toNat : ℕ) : ℚ) * width_degrees bbox n := by
      rw [hnw]; linarith
    rcases interval_cover (width_degrees bbox n) n.toNat hntn bbox.xMin x hx1 hxk
      with ⟨c, hc, hcx1, hcx2⟩
    have hyk : y ≤ bbox.yMin + (((num_rows bbox n).toNat : ℕ) : ℚ) * height_degrees bbox n := by
      rw [hcast_r]; linarith
    rcases interval_cover (height_degrees bbox n) (num_rows bbox n).toNat hrtn bbox.yMin y hy1 hyk
      with ⟨r, hr, hry1, hry2⟩
    refine ⟨mkCell bbox (width_degrees bbox n) (height_degrees bbox n)
      (1 + (r * n.toNat + c)) r c,
      gridCells_mem_of_lt bbox n hntn r c hr hc, ?_, ?_, ?_, ?_⟩ <;>
      simp only [mkCell] <;> linarith
  · intro cell hc
    rcases gridCells_mem_elim bbox n cell hc with ⟨j, r, c, hrr, hcc, heq⟩
    subst heq
    simp only [mkCell]
    have hc1 : ((c : ℕ) : ℚ) + 1 ≤ ((n.toNat : ℕ) : ℚ) := by
      have : (c : ℕ) + 1 ≤ n.toNat := hcc
      exact_mod_cast this
    have hr1q : ((r : ℕ) : ℚ) + 1 ≤ (((num_rows bbox n).toNat : ℕ) : ℚ) := by
      have : (r : ℕ) + 1 ≤ (num_rows bbox n).toNat := hrr
      exact_mod_cast this
    have hcpos : (0 : ℚ) ≤ ((c : ℕ) : ℚ) := Nat.cast_nonneg c
    have hrpos : (0 : ℚ) ≤ ((r : ℕ) : ℚ) := Nat.cast_nonneg r
    have hxu : ((c : ℕ) : ℚ) * width_degrees bbox n + width_degrees bbox n ≤
        bbox.xMax - bbox.xMin := by
      have h1 : (((c : ℕ) : ℚ) + 1) * width_degrees bbox n ≤
          ((n.toNat : ℕ) : ℚ) * width_degrees bbox n :=
        mul_le_mul_of_nonneg_right hc1 (le_of_lt hw0)
      rw [hnw] at h1
      nlinarith
    have hyu : ((r : ℕ) : ℚ) * height_degrees bbox n + height_degrees bbox n ≤
        ((num_rows bbox n : ℤ) : ℚ) * height_degrees bbox n := by
      have h1 : (((r : ℕ) : ℚ) + 1) * height_degrees bbox n ≤
          (((num_rows bbox n).toNat : ℕ) : ℚ) * height_degrees bbox n :=
        mul_le_mul_of_nonneg_right hr1q (le_of_lt hh0)
      rw [hcast_r] at h1
      nlinarith
    refine ⟨by nlinarith, by nlinarith, by nlinarith, by nlinarith⟩

/-- C4 witness: the theorem applied to the box (0,0)-(10,4) with 2 columns. -/
theorem c4_witness :
    (1 : ℤ) ≤ 2 ∧ (0 : ℚ) < 10 ∧ (0 : ℚ) < 4 ∧
    (∃ res : FeatureResult, processFeature (fun _ _ => 0) 2 ⟨0, 0, 10, 4⟩ = Except.ok res ∧
      (∀ x y : ℚ, (0 : ℚ) ≤ x → x ≤ 10 → (0 : ℚ) ≤ y → y ≤ 4 →
        ∃ cell ∈ res.cells, cell.bounds.xMin ≤ x ∧ x ≤ cell.bounds.xMax ∧
          cell.bounds.yMin ≤ y ∧ y ≤ cell.bounds.yMax) ∧
      (∀ cell ∈ res.cells,
        (0 : ℚ) ≤ cell.bounds.xMin ∧ cell.bounds.xMax ≤ 10 ∧
        (0 : ℚ) ≤ cell.bounds.yMin ∧
        cell.bounds.yMax ≤ 0 + ((num_rows ⟨0, 0, 10, 4⟩ 2 : ℤ) : ℚ) *
          height_degrees ⟨0, 0, 10, 4⟩ 2) ∧
      (4 : ℚ) ≤ 0 + ((num_rows ⟨0, 0, 10, 4⟩ 2 : ℤ) : ℚ) * height_degrees ⟨0, 0, 10, 4⟩ 2) :=
  ⟨by norm_num, by norm_num, by norm_num,
    c4_coverage (fun _ _ => 0) 2 ⟨0, 0, 10, 4⟩ (by norm_num) (by norm_num) (by norm_num)⟩

/-! Independence of the result from the distance service. -/

theorem processFeature_dist_cases (d1 d2 : ℚ × ℚ → ℚ × ℚ → ℚ) (n : ℤ) (bbox : BoundingBox) :
    (processFeature d1 n bbox = Except.error PyErr.zeroDivision ∧
     processFeature d2 n bbox = Except.error PyErr.zeroDivision) ∨
    (∃ r1 r2 : FeatureResult, processFeature d1 n bbox = Except.ok r1 ∧
      processFeature d2 n bbox = Except.ok r2 ∧
      r1.cells = r2.cells ∧ r1.distCall = r2.distCall) := by
  by_cases h0 : n = 0
  · left
    constructor <;> simp [processFeature, h0]
  · by_cases hh : height_degrees bbox n = 0
    · left
      constructor <;> simp [processFeature, h0, hh]
    · right
      have hw : width_degrees bbox n ≠ 0 := by
        intro hweq
        exact hh (by rw [height_degrees, hweq, abs_zero])
      exact ⟨_, _, processFeature_ok d1 n bbox h0 hw, processFeature_ok d2 n bbox h0 hw,
        rfl, rfl⟩

theorem processFeatures_dist_indep (d1 d2 : ℚ × ℚ → ℚ × ℚ → ℚ) (n : ℤ) (fields : List String) :
    ∀ feats : List InputFeature,
      processFeatures d1 n fields feats = processFeatures d2 n fields feats := by
  intro feats
  induction feats with
  | nil => rfl
  | cons f rest ih =>
    show (match processFeature d1 n f.bbox with
      | Except.error e => Except.error e
      | Except.ok res =>
        match processFeatures d1 n fields rest with
        | Except.error e => Except.error e
        | Except.ok out => Except.ok (res.cells.map (toFeature fields) ++ out)) =
      (match processFeature d2 n f.bbox with
      | Except.error e => Except.error e
      | Except.ok res =>
        match processFeatures d2 n fields rest with
        | Except.error e => Except.error e
        | Except.ok out => Except.ok (res.cells.map (toFeature fields) ++ out))
    rcases processFeature_dist_cases d1 d2 n f.bbox with ⟨h1, h2⟩ | ⟨r1, r2, h1, h2, hcells, _⟩
    · rw [h1, h2]
    · rw [h1, h2, ih]
      simp [hcells]

theorem runAlgorithm_dist_indep (d1 d2 : ℚ × ℚ → ℚ × ℚ → ℚ) (source : Option Source) (n : ℤ) :
    runAlgorithm d1 source n = runAlgorithm d2 source n := by
  rw [runAlgorithm.eq_def, runAlgorithm.eq_def]
  by_cases hlt : n < 1
  · rw [if_pos hlt, if_pos hlt]
  · rw [if_neg hlt, if_neg hlt]
    match source with
    | none => rfl
    | some src => exact processFeatures_dist_indep d1 d2 n (outputFields src.fields) src.features

/-- C7: for every valid request the distance service is invoked with the
points (xMin, midLat) and (xMin + widthDegrees, midLat) where
midLat = (yMax + yMin)/2, and the partition result does not depend on the
value the service returns: any two services yield identical cell sequences,
and the whole algorithm output is identical for any source. -/
theorem c7_dist_call_and_independence (d1 d2 : ℚ × ℚ → ℚ × ℚ → ℚ) (n : ℤ)
    (bbox : BoundingBox) (hn : 1 ≤ n) (hx : bbox.xMin < bbox.xMax)
    (_hy : bbox.yMin < bbox.yMax) :
    (∀ source : Option Source, runAlgorithm d1 source n = runAlgorithm d2 source n) ∧
    ∃ r1 r2 : FeatureResult, processFeature d1 n bbox = Except.ok r1 ∧
      processFeature d2 n bbox = Except.ok r2 ∧
      r1.distCall = ((bbox.xMin, (bbox.yMax + bbox.yMin) / 2),
                     (bbox.xMin + width_degrees bbox n, (bbox.yMax + bbox.yMin) / 2)) ∧
      r2.distCall = r1.distCall ∧
      r1.cells = r2.cells := by
  have hw0 : 0 < width_degrees bbox n := width_pos bbox n hn hx
  have hn0 : n ≠ 0 := by omega
  refine ⟨fun source => runAlgorithm_dist_indep d1 d2 source n,
    _, _, processFeature_ok d1 n bbox hn0 (ne_of_gt hw0),
    processFeature_ok d2 n bbox hn0 (ne_of_gt hw0), ?_, rfl, rfl⟩
  rw [mid_lat]

/-- C7 witness: the theorem applied to the box (0,0)-(10,4) with 2 columns and
two distinct distance services. -/
theorem c7_witness :
    (1 : ℤ) ≤ 2 ∧ (0 : ℚ) < 10 ∧ (0 : ℚ) < 4 ∧
    ((∀ source : Option Source,
        runAlgorithm (fun _ _ => 0) source 2 = runAlgorithm (fun _ _ => 123456) source 2) ∧
      ∃ r1 r2 : FeatureResult,
        processFeature (fun _ _ => 0) 2 ⟨0, 0, 10, 4⟩ = Except.ok r1 ∧
        processFeature (fun _ _ => 123456) 2 ⟨0, 0, 10, 4⟩ = Except.ok r2 ∧
        r1.distCall = (((0 : ℚ), ((4 : ℚ) + 0) / 2),
                       ((0 : ℚ) + width_degrees ⟨0, 0, 10, 4⟩ 2, ((4 : ℚ) + 0) / 2)) ∧
        r2.distCall = r1.distCall ∧
        r1.cells = r2.cells) :=
  ⟨by norm_num, by norm_num, by norm_num,
    c7_dist_call_and_independence (fun _ _ => 0) (fun _ _ => 123456) 2 ⟨0, 0, 10, 4⟩
      (by norm_num) (by norm_num) (by norm_num)⟩

/-! Error behavior on degenerate inputs. -/

/-- C2 counterexample: the claim says partition fails with InvalidArgument
whenever the bounding box is degenerate; but on the degenerate box
(0,0)-(10,0) (yMax = yMin) with 2 columns `processAlgorithm` raises nothing
and succeeds with zero cells, and the whole run over a one-feature source
succeeds returning an empty output. -/
theorem c2_counterexample :
    processFeature (fun _ _ => 0) 2 ⟨0, 0, 10, 0⟩ =
      Except.ok { cells := [], distCall := ((0, 0), (5, 0)), widthMeters := 0 } ∧
    (∀ e : PyErr, processFeature (fun _ _ => 0) 2 ⟨0, 0, 10, 0⟩ ≠ Except.error e) ∧
    runAlgorithm (fun _ _ => 0)
      (some { fields := [], features := [{ attrs := [], bbox := ⟨0, 0, 10, 0⟩ }] }) 2 =
      Except.ok [] := by
  have hw : width_degrees ⟨0, 0, 10, 0⟩ 2 = 5 := by
    norm_num [width_degrees]
  have hh : height_degrees ⟨0, 0, 10, 0⟩ 2 = 5 := by
    rw [height_degrees, hw]
    norm_num
  have hr : num_rows ⟨0, 0, 10, 0⟩ 2 = 0 := by
    rw [num_rows, hh]
    norm_num
  have hpf : processFeature (fun _ _ => (0 : ℚ)) 2 ⟨0, 0, 10, 0⟩ =
      Except.ok { cells := [], distCall := ((0, 0), (5, 0)), widthMeters := 0 } := by
    rw [processFeature, if_neg (by norm_num), if_neg (by rw [hh]; norm_num)]
    simp only [gridCells, hr, hw, mid_lat]
    norm_num [rcPairs, emitCells]
  refine ⟨hpf, ?_, ?_⟩
  · intro e
    rw [hpf]
    intro hcontra
    exact Except.noConfusion hcontra
  · rw [runAlgorithm.eq_def, if_neg (by norm_num)]
    show (match processFeature (fun _ _ => (0 : ℚ)) 2 ⟨0, 0, 10, 0⟩ with
      | Except.error e => Except.error e
      | Except.ok res =>
        match (Except.ok [] : Except PyErr (List Feature)) with
        | Except.error e => Except.error e
        | Except.ok out => Except.ok (res.cells.map (toFeature (outputFields [])) ++ out)) =
      Except.ok []
    rw [hpf]
    rfl

/-- C2 amended: the parameter layer rejects numColumns < 1 before any
processing; a zero-width box (xMax = xMin) makes the run fail (with a
ZeroDivisionError, since heightDegrees = 0) before any cell is computed;
but a degenerate box with yMax ≤ yMin and xMax ≠ xMin is not rejected (the
run succeeds producing zero cells), and a reversed box with xMax < xMin is
not rejected either (the run succeeds and produces cells). -/
theorem c2_amended (dist : ℚ × ℚ → ℚ × ℚ → ℚ) (src : Source) (n : ℤ) (bbox : BoundingBox) :
    (n < 1 → runAlgorithm dist (some src) n = Except.error PyErr.parameterRejected) ∧
    (1 ≤ n → bbox.xMax = bbox.xMin →
      processFeature dist n bbox = Except.error PyErr.zeroDivision) ∧
    (1 ≤ n → bbox.xMax ≠ bbox.xMin → bbox.yMax ≤ bbox.yMin →
      ∃ res : FeatureResult, processFeature dist n bbox = Except.ok res ∧ res.cells = []) ∧
    (1 ≤ n → bbox.xMax < bbox.xMin → bbox.yMin < bbox.yMax →
      ∃ res : FeatureResult, processFeature dist n bbox = Except.ok res ∧ res.cells ≠ []) := by
  refine ⟨?_, ?_, ?_, ?_⟩
  · intro hlt
    rw [runAlgorithm.eq_def, if_pos hlt]
  · intro hn hxx
    have hn0 : n ≠ 0 := by omega
    have hw : width_degrees bbox n = 0 := by
      rw [width_degrees, hxx, sub_self, zero_div]
    have hh : height_degrees bbox n = 0 := by
      rw [height_degrees, hw, abs_zero]
    rw [processFeature, if_neg hn0, if_pos hh]
  · intro hn hxx hyy
    have hn0 : n ≠ 0 := by omega
    have hwne : width_degrees bbox n ≠ 0 := by
      rw [width_degrees]
      exact div_ne_zero (sub_ne_zero.mpr hxx) (by exact_mod_cast hn0)
    have hh0 : 0 < height_degrees bbox n := height_pos_of_ne bbox n hwne
    have hr0 : num_rows bbox n ≤ 0 := num_rows_nonpos bbox n hyy hh0
    refine ⟨_, processFeature_ok dist n bbox hn0 hwne, ?_⟩
    show gridCells bbox n = []
    rw [gridCells]
    have : (num_rows bbox n).toNat = 0 := by omega
    rw [this, rcPairs_zero]
    rfl
  · intro hn hxx hyy
    have hn0 : n ≠ 0 := by omega
    have hwneg : width_degrees bbox n < 0 := by
      rw [width_degrees]
      apply div_neg_of_neg_of_pos (by linarith)
      exact_mod_cast (by omega : (0 : ℤ) < n)
    have hwne : width_degrees bbox n ≠ 0 := ne_of_lt hwneg
    have hh0 : 0 < height_degrees bbox n := height_pos_of_ne bbox n hwne
    have hr1 : 1 ≤ num_rows bbox n := num_rows_pos bbox n hyy hh0
    refine ⟨_, processFeature_ok dist n bbox hn0 hwne, ?_⟩
    show gridCells bbox n ≠ []
    apply List.ne_nil_of_length_pos
    rw [gridCells_length]
    have h1 : 0 < (num_rows bbox n).toNat := by omega
    have h2 : 0 < n.toNat := by omega
    exact Nat.mul_pos h1 h2

/-- C2 amended witness: numColumns = 0 is rejected by the parameter layer;
the zero-width box (0,0)-(0,10) fails with ZeroDivisionError; the
y-degenerate box (0,0)-(10,0) yields a successful empty run. -/
theorem c2_witness :
    ((0 : ℤ) < 1 ∧
      runAlgorithm (fun _ _ => 0) (some { fields := [], features := [] }) 0 =
        Except.error PyErr.parameterRejected) ∧
    ((1 : ℤ) ≤ 1 ∧ (0 : ℚ) = 0 ∧
      processFeature (fun _ _ => 0) 1 ⟨0, 0, 0, 10⟩ = Except.error PyErr.zeroDivision) ∧
    ((1 : ℤ) ≤ 2 ∧ (10 : ℚ) ≠ 0 ∧ (0 : ℚ) ≤ 0 ∧
      ∃ res : FeatureResult,
        processFeature (fun _ _ => 0) 2 ⟨0, 0, 10, 0⟩ = Except.ok res ∧ res.cells = []) :=
  ⟨⟨by norm_num,
      (c2_amended (fun _ _ => 0) { fields := [], features := [] } 0 ⟨0, 0, 0, 10⟩).1
        (by norm_num)⟩,
    ⟨by norm_num, by norm_num,
      (c2_amended (fun _ _ => 0) { fields := [], features := [] } 1 ⟨0, 0, 0, 10⟩).2.1
        (by norm_num) (by norm_num)⟩,
    ⟨by norm_num, by norm_num, by norm_num,
      (c2_amended (fun _ _ => 0) { fields := [], features := [] } 2 ⟨0, 0, 10, 0⟩).2.2.1
        (by norm_num) (by norm_num) (by norm_num)⟩⟩

/-- C8 counterexample: the claim says a source with no usable feature (no
feature iterated) fails with InvalidSource; but on a readable source with an
empty feature list the run succeeds and returns an empty output instead of
raising. -/
theorem c8_counterexample :
    runAlgorithm (fun _ _ => 0) (some { fields := [], features := [] }) 2 = Except.ok [] ∧
    (Except.ok [] : Except PyErr (List Feature)) ≠ Except.error PyErr.invalidSource := by
  constructor
  · rw [runAlgorithm.eq_def, if_neg (by norm_num)]
    rfl
  · intro h
    exact Except.noConfusion h

/-- C8 amended: when the source cannot be read (is None) the run fails
immediately with InvalidSource and produces no output; but a readable source
that yields no feature does not fail: the run completes successfully with an
empty output. -/
theorem c8_amended (dist : ℚ × ℚ → ℚ × ℚ → ℚ) (n : ℤ) (sf : List String) (hn : 1 ≤ n) :
    runAlgorithm dist none n = Except.error PyErr.invalidSource ∧
    runAlgorithm dist (some { fields := sf, features := [] }) n = Except.ok [] := by
  have h : ¬ n < 1 := by omega
  constructor
  · rw [runAlgorithm.eq_def, if_neg h]
  · rw [runAlgorithm.eq_def, if_neg h]
    rfl

/-- C8 amended witness: the theorem applied at numColumns = 2. -/
theorem c8_witness :
    (1 : ℤ) ≤ 2 ∧
    (runAlgorithm (fun _ _ => 0) none 2 = Except.error PyErr.invalidSource ∧
      runAlgorithm (fun _ _ => 0) (some { fields := [], features := [] }) 2 = Except.ok []) :=
  ⟨by norm_num, c8_amended (fun _ _ => 0) 2 [] (by norm_num)⟩

/-! Attribute handling of the output features. -/

theorem dictGet_not_new (cell : GridCell) (f : String) (hf : f ∉ newFieldNames) :
    dictGet (attrsDict cell) f = AttrVal.null := by
  simp only [newFieldNames, List.mem_cons, List.not_mem_nil, or_false, not_or] at hf
  obtain ⟨h1, h2, h3, h4, h5, h6, h7, h8⟩ := hf
  have e1 : (( "cell_id" : String) == f) = false := beq_eq_false_iff_ne.mpr (fun h => h1 h.symm)
  have e2 : (( "cell_name" : String) == f) = false := beq_eq_false_iff_ne.mpr (fun h => h2 h.symm)
  have e3 : (( "row" : String) == f) = false := beq_eq_false_iff_ne.mpr (fun h => h3 h.symm)
  have e4 : (( "col" : String) == f) = false := beq_eq_false_iff_ne.mpr (fun h => h4 h.symm)
  have e5 : (( "center_lat" : String) == f) = false := beq_eq_false_iff_ne.mpr (fun h => h5 h.symm)
  have e6 : (( "center_lon" : String) == f) = false := beq_eq_false_iff_ne.mpr (fun h => h6 h.symm)
  have e7 : (( "buffer" : String) == f) = false := beq_eq_false_iff_ne.mpr (fun h => h7 h.symm)
  have e8 : (( "notes" : String) == f) = false := beq_eq_false_iff_ne.mpr (fun h => h8 h.symm)
  simp [dictGet, attrsDict, e1, e2, e3, e4, e5, e6, e7, e8]

theorem dictGet_found (cell : GridCell) :
    (attributeValues newFieldNames cell) =
      [AttrVal.intVal (cell.cellId : ℤ), AttrVal.strVal cell.cellName,
       AttrVal.intVal (cell.row : ℤ), AttrVal.intVal (cell.col : ℤ),
       AttrVal.realVal cell.centerLat, AttrVal.realVal cell.centerLon,
       AttrVal.realVal cell.buffer, AttrVal.strVal cell.notes] := by
  simp [attributeValues, newFieldNames, dictGet, attrsDict]

theorem attributeValues_split (sf : List String) (cell : GridCell)
    (hd : ∀ f ∈ sf, f ∉ newFieldNames) :
    attributeValues (outputFields sf) cell =
      sf.map (fun _ => AttrVal.null) ++
        [AttrVal.intVal (cell.cellId : ℤ), AttrVal.strVal cell.cellName,
         AttrVal.intVal (cell.row : ℤ), AttrVal.intVal (cell.col : ℤ),
         AttrVal.realVal cell.centerLat, AttrVal.realVal cell.centerLon,
         AttrVal.realVal cell.buffer, AttrVal.strVal cell.notes] := by
  have h1 : sf.map (fun f => dictGet (attrsDict cell) f) = sf.map (fun _ => AttrVal.null) :=
    List.map_congr_left (fun f hf => dictGet_not_new cell f (hd f hf))
  rw [attributeValues, outputFields, List.map_append, h1]
  exact congrArg (fun l => sf.map (fun _ => AttrVal.null) ++ l) (dictGet_found cell)

theorem c9_amended (dist : ℚ × ℚ → ℚ × ℚ → ℚ) (n : ℤ) (bbox : BoundingBox)
    (sf : List String) (attrs0 : List (String × AttrVal))
    (hn : 1 ≤ n) (hx : bbox.xMin < bbox.xMax) (_hy : bbox.yMin < bbox.yMax)
    (hd : ∀ f ∈ sf, f ∉ newFieldNames) :
    ∃ feats : List Feature,
      runAlgorithm dist
          (some { fields := sf, features := [{ attrs := attrs0, bbox := bbox }] }) n =
        Except.ok feats ∧
      feats = (gridCells bbox n).map (toFeature (outputFields sf)) ∧
      ∀ fe ∈ feats, ∃ cell ∈ gridCells bbox n,
        fe.attributes =
          sf.map (fun _ => AttrVal.null) ++
            [AttrVal.intVal (cell.cellId : ℤ), AttrVal.strVal cell.cellName,
             AttrVal.intVal (cell.row : ℤ), AttrVal.intVal (cell.col : ℤ),
             AttrVal.realVal cell.centerLat, AttrVal.realVal cell.centerLon,
             AttrVal.realVal cell.buffer, AttrVal.strVal cell.notes] := by
  have hw0 : 0 < width_degrees bbox n := width_pos bbox n hn hx
  have hn0 : n ≠ 0 := by omega
  refine ⟨(gridCells bbox n).map (toFeature (outputFields sf)), ?_, rfl, ?_⟩
  · rw [runAlgorithm.eq_def, if_neg (by omega)]
    show processFeatures dist n (outputFields sf) [{ attrs := attrs0, bbox := bbox }] = _
    simp [processFeatures, processFeature_ok dist n bbox hn0 (ne_of_gt hw0)]
  · intro fe hfe
    rcases List.mem_map.1 hfe with ⟨cell, hcell, hfe_eq⟩
    refine ⟨cell, hcell, ?_⟩
    rw [← hfe_eq]
    exact attributeValues_split sf cell hd

theorem c9_counterexample :
    runAlgorithm (fun _ _ => 0)
      (some { fields := [ "fid"],
              features := [{ attrs := [( "fid", AttrVal.intVal 7)], bbox := ⟨0, 0, 10, 10⟩ }] })
      1 =
      Except.ok
        [{ geometry := ⟨0, 0, 10, 10⟩,
           attributes :=
             [AttrVal.null, AttrVal.intVal 1, AttrVal.strVal "R01C01", AttrVal.intVal 1,
              AttrVal.intVal 1, AttrVal.realVal 5, AttrVal.realVal 5, AttrVal.realVal 5,
              AttrVal.strVal ""] }] ∧
    AttrVal.null ≠ AttrVal.intVal 7 := by
  have hw : width_degrees ⟨0, 0, 10, 10⟩ 1 = 10 := by
    norm_num [width_degrees]
  have hh : height_degrees ⟨0, 0, 10, 10⟩ 1 = 10 := by
    rw [height_degrees, hw]
    norm_num
  have hr : num_rows ⟨0, 0, 10, 10⟩ 1 = 1 := by
    rw [num_rows, hh, Int.ceil_eq_iff]
    norm_num
  constructor
  · rw [runAlgorithm.eq_def, if_neg (by norm_num)]
    show processFeatures (fun _ _ => 0) 1 (outputFields [ "fid"])
        [{ attrs := [( "fid", AttrVal.intVal 7)], bbox := ⟨0, 0, 10, 10⟩ }] = _
    rw [processFeatures, processFeature_ok (fun _ _ => 0) 1 ⟨0, 0, 10, 10⟩ (by norm_num)
      (by rw [hw]; norm_num)]
    show Except.ok ((gridCells ⟨0, 0, 10, 10⟩ 1).map (toFeature (outputFields [ "fid"])) ++ []) = _
    rw [gridCells, hr, hw, hh]
    norm_num [rcPairs, emitCells, mkCell, toFeature, attributeValues, outputFields,
      newFieldNames, attrsDict, dictGet, round6, pad2]
    decide
  · intro h
    exact AttrVal.noConfusion h


/-- C9 amended witness: the theorem applied to a source with one field named
fid, one feature, and the box (0,0)-(10,10) with 1 column. -/
theorem c9_witness :
    (1 : ℤ) ≤ 1 ∧ (0 : ℚ) < 10 ∧ (∀ f ∈ [ "fid"], f ∉ newFieldNames) ∧
    (∃ feats : List Feature,
      runAlgorithm (fun _ _ => 0)
          (some { fields := [ "fid"],
                  features := [{ attrs := [( "fid", AttrVal.intVal 7)],
                                 bbox := ⟨0, 0, 10, 10⟩ }] }) 1 =
        Except.ok feats ∧
      feats = (gridCells ⟨0, 0, 10, 10⟩ 1).map (toFeature (outputFields [ "fid"])) ∧
      ∀ fe ∈ feats, ∃ cell ∈ gridCells ⟨0, 0, 10, 10⟩ 1,
        fe.attributes =
          [ "fid"].map (fun _ => AttrVal.null) ++
            [AttrVal.intVal (cell.cellId : ℤ), AttrVal.strVal cell.cellName,
             AttrVal.intVal (cell.row : ℤ), AttrVal.intVal (cell.col : ℤ),
             AttrVal.realVal cell.centerLat, AttrVal.realVal cell.centerLon,
             AttrVal.realVal cell.buffer, AttrVal.strVal cell.notes]) :=
  ⟨by norm_num, by norm_num, by decide,
    c9_amended (fun _ _ => 0) 1 ⟨0, 0, 10, 10⟩ [ "fid"] [( "fid", AttrVal.intVal 7)]
      (by norm_num) (by norm_num) (by norm_num) (by decide)⟩

end BoundingBoxDivider
